import Mathlib

/-!
Verification of the tic-tac-toe console game in src/examples/tic_tac_toe.cpp.

The C++ class TicTacToe owns a 9-element char array board_ and a char
current_player_.  The board is embedded as a total function Fin 9 → Char
(a faithful model of a fixed-size array of char) and the player as a Char.
Empty cells hold the space character, exactly as in the source, which
fills the board with spaces in reset.  All member functions are embedded as
pure Lean functions; the const member functions draw_board, has_winner and
is_draw are functions of the state only, so freedom from mutation holds by
construction.  Console output is modelled as explicit String values and the
exit call on stream closure as an exited outcome carrying the exit code.
-/

structure TicTacToe where
  board_ : Fin 9 → Char
  current_player_ : Char

instance : DecidableEq TicTacToe := fun a b =>
  if h1 : a.board_ = b.board_ then
    if h2 : a.current_player_ = b.current_player_ then
      isTrue (by cases a; cases b; cases h1; cases h2; rfl)
    else isFalse (fun h => h2 (by rw [h]))
  else isFalse (fun h => h1 (by rw [h]))

/-- State after the reset member function: all cells blank, player X. -/
def reset : TicTacToe := ⟨fun _ => ' ', 'X'⟩

/-- Total cell read at a Nat index: the in-range value of the board at i,
blank out of range (the source never reads out of range, see the C9
theorem). -/
def cell (s : TicTacToe) (i : Nat) : Char :=
  if h : i < 9 then s.board_ ⟨i, h⟩ else ' '

/-- The place_mark member function: range check (position below 1 or above
9), then occupancy check, then the write of the current player into the
cell at index position minus 1.  Returns the C++ return value paired with
the state after the call. -/
def place_mark (s : TicTacToe) (position : Int) : Bool × TicTacToe :=
  if h : position < 1 ∨ 9 < position then (false, s)
  else
    let index : Fin 9 := ⟨(position - 1).toNat, by omega⟩
    if s.board_ index != ' ' then (false, s)
    else (true, { s with board_ := Function.update s.board_ index s.current_player_ })

/-- The constexpr table of 8 winning lines in has_winner. -/
def wins : List (Fin 9 × Fin 9 × Fin 9) :=
  [(0, 1, 2), (3, 4, 5), (6, 7, 8),
   (0, 3, 6), (1, 4, 7), (2, 5, 8),
   (0, 4, 8), (2, 4, 6)]

/-- Body of the loop in has_winner: the three cells of one line are
non-blank and pairwise equal. -/
def line_has_win (s : TicTacToe) (l : Fin 9 × Fin 9 × Fin 9) : Bool :=
  let a := s.board_ l.1
  let b := s.board_ l.2.1
  let c := s.board_ l.2.2
  a != ' ' && a == b && b == c

/-- The has_winner member function: some entry of the wins table has three
equal non-empty marks. -/
def has_winner (s : TicTacToe) : Bool := wins.any (line_has_win s)

/-- The is_draw member function: the loop over the board returns false at
the first blank cell, true if none is blank. -/
def is_draw (s : TicTacToe) : Bool :=
  (List.finRange 9).all fun i => s.board_ i != ' '

/-- The swap_player member function: toggles the current player between X
and O. -/
def swap_player (s : TicTacToe) : TicTacToe :=
  { s with current_player_ := if s.current_player_ == 'X' then 'O' else 'X' }

/-- The displayed character of one cell in draw_board: the mark when the
cell is occupied, otherwise the digit character obtained by adding the
index to the character for 1. -/
def display_cell (s : TicTacToe) (i : Fin 9) : Char :=
  let c := s.board_ i
  if c == ' ' then Char.ofNat ('1'.toNat + i.val) else c

/-- The exact character stream printed by draw_board: a leading newline,
three rows with cells separated by vertical bars, dashed lines between
rows, and a trailing newline. -/
def draw_board_chars (s : TicTacToe) : List Char :=
  ['\n'] ++
  [' ', display_cell s 0, ' ', '|', ' ', display_cell s 1, ' ', '|', ' ', display_cell s 2, ' ', '\n'] ++
  ['-', '-', '-', '-', '-', '-', '-', '-', '-', '-', '-', '\n'] ++
  [' ', display_cell s 3, ' ', '|', ' ', display_cell s 4, ' ', '|', ' ', display_cell s 5, ' ', '\n'] ++
  ['-', '-', '-', '-', '-', '-', '-', '-', '-', '-', '-', '\n'] ++
  [' ', display_cell s 6, ' ', '|', ' ', display_cell s 7, ' ', '|', ' ', display_cell s 8, ' ', '\n'] ++
  ['\n']

/-- The draw_board output as a single string. -/
def draw_board (s : TicTacToe) : String := String.mk (draw_board_chars s)

/-- The character predicate of C isspace in the default locale, which the
C++ stoi uses to skip leading whitespace: space, tab, newline, vertical
tab (code 11), form feed (code 12), carriage return. -/
def is_space_char (c : Char) : Bool :=
  c == ' ' || c == '\t' || c == '\n' || c.toNat == 11 || c.toNat == 12 || c == '\r'

/-- Value of a block of decimal digits, most significant first. -/
def digits_to_nat (ds : List Char) : Nat :=
  ds.foldl (fun acc c => acc * 10 + (c.toNat - 48)) 0

/-- The C++ stoi as a total function: some v when the conversion succeeds
with value v, none when it throws (invalid_argument when no digits can be
consumed after optional whitespace and sign, out_of_range when the value
does not fit a 32-bit int).  Trailing non-digit characters are ignored, as
in C++; both exception kinds are caught by the same handler in
prompt_move. -/
def stoi (line : String) : Option Int :=
  let cs := line.toList.dropWhile is_space_char
  let signed : Int × List Char :=
    match cs with
    | '-' :: r => (-1, r)
    | '+' :: r => (1, r)
    | r => (1, r)
  let ds := signed.2.takeWhile Char.isDigit
  if ds.isEmpty then none
  else
    let v : Int := signed.1 * (digits_to_nat ds : Int)
    if v < -2147483648 ∨ 2147483647 < v then none else some v

/-- The prompt printed at the top of prompt_move. -/
def prompt_str (s : TicTacToe) : String :=
  "Player " ++ String.singleton s.current_player_ ++ ", choose a square (1-9): "

/-- The message printed when getline fails at a prompt. -/
def closure_msg : String := "Input stream closed. Exiting."

/-- The message printed on a parse failure in prompt_move. -/
def parse_msg : String := "Please enter a number between 1 and 9."

/-- The message printed when place_mark rejects a parsed move. -/
def invalid_msg : String := "Invalid move. Try again."

/-- Outcome of one call to prompt_move: either the process exits (the
branch taken on a closed input stream, carrying the exit code passed to
the exit call, which the source fixes at 0), or the call returns its
moved flag (the C++ return value) with the state after the call. -/
inductive PromptStep
  | exited (code : Nat)
  | step (moved : Bool) (s : TicTacToe)
deriving DecidableEq

/-- The prompt_move member function: reads one line (none models getline
failing on a closed or exhausted stream), parses it with stoi, and tries
place_mark.  Returns the outcome together with everything printed, in
order. -/
def prompt_move (s : TicTacToe) (input : Option String) : PromptStep × List String :=
  match input with
  | none => (.exited 0, [prompt_str s, closure_msg])
  | some line =>
    match stoi line with
    | none => (.step false s, [prompt_str s, parse_msg])
    | some choice =>
      match place_mark s choice with
      | (true, s') => (.step true s', [prompt_str s])
      | (false, _) => (.step false s, [prompt_str s, invalid_msg])

/-- How one session ends: a break after a win announcement, a break after
a draw announcement, or process exit with the given code on stream
closure. -/
inductive RunResult
  | won (p : Char) (final : TicTacToe)
  | drawn (final : TicTacToe)
  | terminated (code : Nat) (final : TicTacToe)
deriving DecidableEq

/-- Observable record of one run of the main loop: how it ended,
everything printed (in order), and the current player at each accepted
move (the mover trace). -/
structure RunLog where
  result : RunResult
  outputs : List String
  movers : List Char
deriving DecidableEq

/-- The win announcement naming the current player. -/
def win_msg (s : TicTacToe) : String :=
  "Player " ++ String.singleton s.current_player_ ++ " wins!"

/-- The draw announcement. -/
def draw_msg : String := "It\x27s a draw!"

/-- The main loop of the run member function, from state s, fed the given
input lines; when the list is exhausted, getline fails.  Each iteration
prints the board, runs prompt_move, and on an accepted move checks
has_winner, then is_draw, before swap_player. -/
def run_from (s : TicTacToe) : List String → RunLog
  | [] =>
    ⟨.terminated 0 s, draw_board s :: (prompt_move s none).2, []⟩
  | line :: rest =>
    match prompt_move s (some line) with
    | (.exited code, out) => ⟨.terminated code s, draw_board s :: out, []⟩
    | (.step false s', out) =>
      let log := run_from s' rest
      ⟨log.result, (draw_board s :: out) ++ log.outputs, log.movers⟩
    | (.step true s', out) =>
      if has_winner s' then
        ⟨.won s'.current_player_ s', (draw_board s :: out) ++ [draw_board s', win_msg s'],
          [s.current_player_]⟩
      else if is_draw s' then
        ⟨.drawn s', (draw_board s :: out) ++ [draw_board s', draw_msg],
          [s.current_player_]⟩
      else
        let log := run_from (swap_player s') rest
        ⟨log.result, (draw_board s :: out) ++ log.outputs, s.current_player_ :: log.movers⟩

/-- The welcome banner printed by run before the loop. -/
def welcome : String := "Welcome to Tic Tac Toe! Players are X and O."

/-- The main function: constructs the game, calls run (which starts from
reset), and returns 0; a stream-closure exit instead reports the code
passed to the exit call.  Result: the run log and the process exit code. -/
def main_run (inputs : List String) : RunLog × Nat :=
  let log := run_from reset inputs
  (⟨log.result, welcome :: log.outputs, log.movers⟩,
   match log.result with
   | .terminated code _ => code
   | _ => 0)

/-- A completely full board that also contains winning lines. -/
def full_x_board : TicTacToe := ⟨fun _ => 'X', 'X'⟩

/-- Row-major index of the cell at row r, column c (index = row times 3
plus column, as in draw_board). -/
def cell_index (r c : Fin 3) : Fin 9 := ⟨3 * r.val + c.val, by omega⟩

/-- Spec predicate: row r (cells 3r, 3r+1, 3r+2) holds three equal
non-empty marks. -/
def row_win (s : TicTacToe) (r : Nat) : Prop :=
  cell s (3 * r) ≠ ' ' ∧ cell s (3 * r) = cell s (3 * r + 1) ∧
    cell s (3 * r + 1) = cell s (3 * r + 2)

/-- Spec predicate: column c (cells c, c+3, c+6) holds three equal
non-empty marks. -/
def col_win (s : TicTacToe) (c : Nat) : Prop :=
  cell s c ≠ ' ' ∧ cell s c = cell s (c + 3) ∧ cell s (c + 3) = cell s (c + 6)

/-- Spec predicate: one of the two diagonals holds three equal non-empty
marks. -/
def diag_win (s : TicTacToe) : Prop :=
  (cell s 0 ≠ ' ' ∧ cell s 0 = cell s 4 ∧ cell s 4 = cell s 8) ∨
  (cell s 2 ≠ ' ' ∧ cell s 2 = cell s 4 ∧ cell s 4 = cell s 6)

/-- The strictly alternating sequence of n marks starting from p, toggling
exactly as swap_player does. -/
def altList : Char → Nat → List Char
  | _, 0 => []
  | p, Nat.succ n => p :: altList (if p == 'X' then 'O' else 'X') n

/-- Number of cells holding mark c. -/
def count_mark (s : TicTacToe) (c : Char) : Nat :=
  (Finset.univ.filter fun i : Fin 9 => s.board_ i = c).card

/-- Loop-head states of run: the state at the top of the loop body.  The
run starts from reset; after an accepted move that neither wins nor draws,
the loop continues from the swapped state. -/
inductive ReachableHead : TicTacToe → Prop
  | init : ReachableHead reset
  | next (s : TicTacToe) (p : Int) (h : ReachableHead s)
      (hacc : (place_mark s p).1 = true)
      (hw : has_winner (place_mark s p).2 = false)
      (hd : is_draw (place_mark s p).2 = false) :
      ReachableHead (swap_player (place_mark s p).2)

/-- All states the program ever holds: loop-head states, plus the state
just after any accepted move (before the win and draw checks and the
swap). -/
def Reachable (t : TicTacToe) : Prop :=
  ReachableHead t ∨
    ∃ s p, ReachableHead s ∧ (place_mark s p).1 = true ∧ t = (place_mark s p).2

/-- Every cell holds blank, X, or O. -/
def CellsOk (s : TicTacToe) : Prop :=
  ∀ i : Fin 9, s.board_ i = ' ' ∨ s.board_ i = 'X' ∨ s.board_ i = 'O'

/-- The claimed state invariant: well-formed cells, well-formed player,
and the X count exceeds the O count by 0 or 1. -/
def StateInv (s : TicTacToe) : Prop :=
  CellsOk s ∧ (s.current_player_ = 'X' ∨ s.current_player_ = 'O') ∧
  count_mark s 'O' ≤ count_mark s 'X' ∧ count_mark s 'X' ≤ count_mark s 'O' + 1

/-- Strengthened invariant at loop-head states: the mover about to play is
exactly determined by the count difference. -/
def HeadInv (s : TicTacToe) : Prop :=
  CellsOk s ∧
  ((s.current_player_ = 'X' ∧ count_mark s 'X' = count_mark s 'O') ∨
   (s.current_player_ = 'O' ∧ count_mark s 'X' = count_mark s 'O' + 1))

/-- Witness fixture: board with X already at squares 1 and 2, X to move. -/
def c5_before : TicTacToe := ⟨fun i => if i.val ≤ 1 then 'X' else ' ', 'X'⟩

/-- Witness fixture: c5_before after X plays square 3, completing the top
row. -/
def c5_after : TicTacToe := (place_mark c5_before 3).2

/-- Witness fixture: an unparsable input line. -/
def abc_line : String := "abc"

/-- Witness fixture: the input line selecting square 3. -/
def square3 : String := "3"

theorem place_mark_player (s : TicTacToe) (p : Int) :
    (place_mark s p).2.current_player_ = s.current_player_ := by
  unfold place_mark
  split
  · rfl
  · dsimp only
    split <;> rfl

theorem place_mark_accepted (s : TicTacToe) (p : Int) (h : (place_mark s p).1 = true) :
    ∃ idx : Fin 9, s.board_ idx = ' ' ∧
      (place_mark s p).2 =
        { s with board_ := Function.update s.board_ idx s.current_player_ } := by
  by_cases hr : p < 1 ∨ 9 < p
  · simp [place_mark, hr] at h
  · have hidx : (p - 1).toNat < 9 := by omega
    by_cases hocc : s.board_ ⟨(p - 1).toNat, hidx⟩ = ' '
    · refine ⟨⟨(p - 1).toNat, hidx⟩, hocc, ?_⟩
      simp [place_mark, hr, hocc, -Int.pred_toNat]
    · simp [place_mark, hr, hocc, -Int.pred_toNat] at h

theorem prompt_move_accept (s : TicTacToe) (line : String) (s' : TicTacToe)
    (h : (prompt_move s (some line)).1 = .step true s') :
    ∃ n, stoi line = some n ∧ place_mark s n = (true, s') := by
  cases hst : stoi line with
  | none => simp [prompt_move, hst] at h
  | some n =>
    cases hpm : place_mark s n with
    | mk b t =>
      cases b
      · simp [prompt_move, hst, hpm] at h
      · simp [prompt_move, hst, hpm] at h
        exact ⟨n, rfl, by rw [hpm, h]⟩

theorem prompt_move_reject (s : TicTacToe) (line : String) (t : TicTacToe)
    (h : (prompt_move s (some line)).1 = .step false t) : t = s := by
  cases hst : stoi line with
  | none =>
    simp [prompt_move, hst] at h
    exact h.symm
  | some n =>
    cases hpm : place_mark s n with
    | mk b t' =>
      cases b
      · simp [prompt_move, hst, hpm] at h
        exact h.symm
      · simp [prompt_move, hst, hpm] at h

theorem prompt_move_some_step (s : TicTacToe) (line : String) :
    ∃ b t, (prompt_move s (some line)).1 = .step b t := by
  cases hst : stoi line with
  | none => exact ⟨false, s, by simp [prompt_move, hst]⟩
  | some n =>
    cases hpm : place_mark s n with
    | mk b t =>
      cases b
      · exact ⟨false, s, by simp [prompt_move, hst, hpm]⟩
      · exact ⟨true, t, by simp [prompt_move, hst, hpm]⟩

theorem run_from_nil (s : TicTacToe) :
    run_from s [] = ⟨.terminated 0 s, [draw_board s, prompt_str s, closure_msg], []⟩ :=
  rfl

theorem run_from_reject (s : TicTacToe) (line : String) (rest : List String) (out : List String)
    (h : prompt_move s (some line) = (.step false s, out)) :
    run_from s (line :: rest) =
      ⟨(run_from s rest).result, (draw_board s :: out) ++ (run_from s rest).outputs,
        (run_from s rest).movers⟩ := by
  simp [run_from, h]

theorem run_from_accept_win (s : TicTacToe) (line : String) (rest : List String)
    (s' : TicTacToe) (out : List String)
    (h : prompt_move s (some line) = (.step true s', out)) (hw : has_winner s' = true) :
    run_from s (line :: rest) =
      ⟨.won s'.current_player_ s', (draw_board s :: out) ++ [draw_board s', win_msg s'],
        [s.current_player_]⟩ := by
  simp [run_from, h, hw]

theorem run_from_accept_draw (s : TicTacToe) (line : String) (rest : List String)
    (s' : TicTacToe) (out : List String)
    (h : prompt_move s (some line) = (.step true s', out)) (hw : has_winner s' = false)
    (hd : is_draw s' = true) :
    run_from s (line :: rest) =
      ⟨.drawn s', (draw_board s :: out) ++ [draw_board s', draw_msg],
        [s.current_player_]⟩ := by
  simp [run_from, h, hw, hd]

theorem run_from_accept_next (s : TicTacToe) (line : String) (rest : List String)
    (s' : TicTacToe) (out : List String)
    (h : prompt_move s (some line) = (.step true s', out)) (hw : has_winner s' = false)
    (hd : is_draw s' = false) :
    run_from s (line :: rest) =
      ⟨(run_from (swap_player s') rest).result,
        (draw_board s :: out) ++ (run_from (swap_player s') rest).outputs,
        s.current_player_ :: (run_from (swap_player s') rest).movers⟩ := by
  simp [run_from, h, hw, hd]

theorem run_from_terminated (inputs : List String) :
    ∀ s code fin, (run_from s inputs).result = .terminated code fin →
      code = 0 ∧ (run_from s inputs).outputs.getLast? = some closure_msg := by
  induction inputs with
  | nil =>
    intro s code fin h
    rw [run_from_nil] at h ⊢
    simp at h
    exact ⟨h.1.symm, rfl⟩
  | cons line rest ih =>
    intro s code fin h
    obtain ⟨b, t, hbt⟩ := prompt_move_some_step s line
    have hp : prompt_move s (some line) = (.step b t, (prompt_move s (some line)).2) := by
      rw [← hbt]
    cases b
    · have ht : t = s := prompt_move_reject s line t hbt
      subst ht
      rw [run_from_reject _ line rest _ hp] at h ⊢
      simp only at h ⊢
      obtain ⟨hc, hl⟩ := ih _ code fin h
      refine ⟨hc, ?_⟩
      rw [List.getLast?_append_of_ne_nil]
      · exact hl
      · intro hnil
        rw [hnil] at hl
        simp at hl
    · cases hw : has_winner t with
      | true =>
        rw [run_from_accept_win s line rest t _ hp hw] at h
        simp at h
      | false =>
        cases hd : is_draw t with
        | true =>
          rw [run_from_accept_draw s line rest t _ hp hw hd] at h
          simp at h
        | false =>
          rw [run_from_accept_next s line rest t _ hp hw hd] at h ⊢
          simp only at h ⊢
          obtain ⟨hc, hl⟩ := ih (swap_player t) code fin h
          refine ⟨hc, ?_⟩
          rw [List.getLast?_append_of_ne_nil]
          · exact hl
          · intro hnil
            rw [hnil] at hl
            simp at hl

theorem altList_length (p : Char) (n : Nat) : (altList p n).length = n := by
  induction n generalizing p with
  | zero => rfl
  | succ n ih => simp [altList, ih]

theorem run_from_movers (inputs : List String) :
    ∀ s, (run_from s inputs).movers =
        altList s.current_player_ (run_from s inputs).movers.length ∧
      (∀ p fin, (run_from s inputs).result = .won p fin →
        p = fin.current_player_ ∧
        (run_from s inputs).movers.getLast? = some fin.current_player_) ∧
      (∀ fin, (run_from s inputs).result = .drawn fin →
        (run_from s inputs).movers.getLast? = some fin.current_player_) := by
  induction inputs with
  | nil =>
    intro s
    rw [run_from_nil]
    exact ⟨rfl, by intro p fin h; simp at h, by intro fin h; simp at h⟩
  | cons line rest ih =>
    intro s
    obtain ⟨b, t, hbt⟩ := prompt_move_some_step s line
    have hp : prompt_move s (some line) = (.step b t, (prompt_move s (some line)).2) := by
      rw [← hbt]
    cases b
    · have ht : t = s := prompt_move_reject s line t hbt
      subst ht
      rw [run_from_reject _ line rest _ hp]
      exact ih _
    · have hplayer : t.current_player_ = s.current_player_ := by
        obtain ⟨n, _, hpm⟩ := prompt_move_accept s line t hbt
        have := place_mark_player s n
        rw [hpm] at this
        exact this
      cases hw : has_winner t with
      | true =>
        rw [run_from_accept_win s line rest t _ hp hw]
        refine ⟨by simp [altList], ?_, ?_⟩
        · intro p fin h
          simp only [RunResult.won.injEq] at h
          obtain ⟨hpp, hff⟩ := h
          subst hff
          exact ⟨hpp.symm, by simp [hplayer]⟩
        · intro fin h
          simp at h
      | false =>
        cases hd : is_draw t with
        | true =>
          rw [run_from_accept_draw s line rest t _ hp hw hd]
          refine ⟨by simp [altList], ?_, ?_⟩
          · intro p fin h
            simp at h
          · intro fin h
            simp only [RunResult.drawn.injEq] at h
            subst h
            simp [hplayer]
        | false =>
          rw [run_from_accept_next s line rest t _ hp hw hd]
          obtain ⟨ihm, ihw, ihd⟩ := ih (swap_player t)
          have hswap : (swap_player t).current_player_ =
              (if s.current_player_ == 'X' then 'O' else 'X') := by
            simp [swap_player, hplayer]
          refine ⟨?_, ?_, ?_⟩
          · simp only [List.length_cons, altList]
            conv_lhs => rw [ihm, hswap]
          · intro p fin h
            simp only at h
            obtain ⟨hpp, hlast⟩ := ihw p fin h
            refine ⟨hpp, ?_⟩
            simp only
            rw [List.getLast?_cons, hlast]
            cases hm : (run_from (swap_player t) rest).movers with
            | nil => rw [hm] at hlast; simp at hlast
            | cons a l => rfl
          · intro fin h
            simp only at h
            have hlast := ihd fin h
            simp only
            rw [List.getLast?_cons, hlast]
            cases hm : (run_from (swap_player t) rest).movers with
            | nil => rw [hm] at hlast; simp at hlast
            | cons a l => rfl

theorem filter_update_self (f : Fin 9 → Char) (idx : Fin 9) (m : Char) (hold : f idx ≠ m) :
    (Finset.univ.filter fun i => Function.update f idx m i = m) =
      insert idx (Finset.univ.filter fun i => f i = m) := by
  ext j
  by_cases hj : j = idx
  · subst hj
    simp [Function.update_same]
  · simp [Function.update_noteq hj, hj]

theorem filter_update_other (f : Fin 9 → Char) (idx : Fin 9) (m c : Char) (hne : m ≠ c) :
    (Finset.univ.filter fun i => Function.update f idx m i = c) =
      (Finset.univ.filter fun i => f i = c).erase idx := by
  ext j
  by_cases hj : j = idx
  · subst hj
    simp [Function.update_same, hne]
  · simp [Function.update_noteq hj, hj]

theorem count_mark_update_self (s : TicTacToe) (idx : Fin 9) (m : Char)
    (hold : s.board_ idx ≠ m) :
    count_mark { s with board_ := Function.update s.board_ idx m } m =
      count_mark s m + 1 := by
  show (Finset.univ.filter fun i => Function.update s.board_ idx m i = m).card = _
  rw [filter_update_self s.board_ idx m hold,
    Finset.card_insert_of_not_mem (by simp [hold])]
  rfl

theorem count_mark_update_other (s : TicTacToe) (idx : Fin 9) (m c : Char) (hne : m ≠ c)
    (hold : s.board_ idx ≠ c) :
    count_mark { s with board_ := Function.update s.board_ idx m } c =
      count_mark s c := by
  show (Finset.univ.filter fun i => Function.update s.board_ idx m i = c).card = _
  rw [filter_update_other s.board_ idx m c hne,
    Finset.erase_eq_of_not_mem (by simp [hold])]
  rfl

theorem cells_ok_update (s : TicTacToe) (idx : Fin 9) (hs : CellsOk s)
    (hm : s.current_player_ = 'X' ∨ s.current_player_ = 'O') :
    CellsOk { s with board_ := Function.update s.board_ idx s.current_player_ } := by
  intro i
  show Function.update s.board_ idx s.current_player_ i = ' ' ∨
    Function.update s.board_ idx s.current_player_ i = 'X' ∨
    Function.update s.board_ idx s.current_player_ i = 'O'
  by_cases hi : i = idx
  · rw [hi, Function.update_same]
    tauto
  · rw [Function.update_noteq hi]
    exact hs i

theorem head_inv_place (s : TicTacToe) (p : Int) (hs : HeadInv s)
    (hacc : (place_mark s p).1 = true) :
    StateInv (place_mark s p).2 ∧ HeadInv (swap_player (place_mark s p).2) := by
  obtain ⟨idx, hold, heq⟩ := place_mark_accepted s p hacc
  obtain ⟨hcells, hcase⟩ := hs
  have hne_x : s.board_ idx ≠ 'X' := by rw [hold]; decide
  have hne_o : s.board_ idx ≠ 'O' := by rw [hold]; decide
  have hplayer_mid : (place_mark s p).2.current_player_ = s.current_player_ := by
    rw [heq]
  have hcells_mid : CellsOk (place_mark s p).2 := by
    rw [heq]
    exact cells_ok_update s idx hcells (by tauto)
  have hswap_counts : ∀ c, count_mark (swap_player (place_mark s p).2) c =
      count_mark (place_mark s p).2 c := fun c => rfl
  have hswap_cells : CellsOk (swap_player (place_mark s p).2) := fun i => hcells_mid i
  rcases hcase with ⟨hpl, hcnt⟩ | ⟨hpl, hcnt⟩
  · have hX : count_mark (place_mark s p).2 'X' = count_mark s 'X' + 1 := by
      rw [heq, hpl]
      exact count_mark_update_self s idx 'X' hne_x
    have hO : count_mark (place_mark s p).2 'O' = count_mark s 'O' := by
      rw [heq, hpl]
      exact count_mark_update_other s idx 'X' 'O' (by decide) hne_o
    refine ⟨⟨hcells_mid, Or.inl (by rw [hplayer_mid, hpl]), by omega, by omega⟩,
      hswap_cells, Or.inr ⟨?_, ?_⟩⟩
    · simp [swap_player, hplayer_mid, hpl]
    · rw [hswap_counts, hswap_counts, hX, hO]
      omega
  · have hX : count_mark (place_mark s p).2 'X' = count_mark s 'X' := by
      rw [heq, hpl]
      exact count_mark_update_other s idx 'O' 'X' (by decide) hne_x
    have hO : count_mark (place_mark s p).2 'O' = count_mark s 'O' + 1 := by
      rw [heq, hpl]
      exact count_mark_update_self s idx 'O' hne_o
    refine ⟨⟨hcells_mid, Or.inr (by rw [hplayer_mid, hpl]), by omega, by omega⟩,
      hswap_cells, Or.inl ⟨?_, ?_⟩⟩
    · simp [swap_player, hplayer_mid, hpl]
    · rw [hswap_counts, hswap_counts, hX, hO]
      omega

theorem head_inv_of_reachable_head (s : TicTacToe) (h : ReachableHead s) : HeadInv s := by
  induction h with
  | init => exact ⟨fun i => Or.inl rfl, Or.inl ⟨rfl, by decide⟩⟩
  | next s p h hacc hw hd ih => exact (head_inv_place s p ih hacc).2

theorem state_inv_of_head (s : TicTacToe) (h : HeadInv s) : StateInv s := by
  obtain ⟨hc, hcase⟩ := h
  rcases hcase with ⟨hpl, hcnt⟩ | ⟨hpl, hcnt⟩
  · exact ⟨hc, Or.inl hpl, by omega, by omega⟩
  · exact ⟨hc, Or.inr hpl, by omega, by omega⟩

/-- Claim C1, counterexample: on a completely full board that contains a
winning line, is_draw returns true while the claim (all cells non-empty
AND has_winner false) demands false, so the claimed equivalence fails. -/
theorem C1_counterexample :
    ¬ (is_draw full_x_board = true ↔
        ((∀ i : Fin 9, full_x_board.board_ i ≠ ' ') ∧ has_winner full_x_board = false)) := by
  decide

/-- Claim C1, amended: is_draw returns true if and only if all 9 cells of
the board are non-empty; it does not consult has_winner, so on a
completely full board containing a winning line it returns true (the main
loop still announces a win there because it checks has_winner first). -/
theorem C1_is_draw_iff_full (s : TicTacToe) :
    is_draw s = true ↔ ∀ i : Fin 9, s.board_ i ≠ ' ' := by
  simp [is_draw, List.all_eq_true, List.mem_finRange, bne_iff_ne]

/-- Claim C2: for every integer position and every board state, place_mark
returns false and leaves the state unchanged when the position is out of
range 1 to 9 or the targeted cell (index position minus 1) is non-empty;
otherwise it returns true, writes the current player into exactly that
cell, changes no other cell, and leaves the player unchanged. -/
theorem C2_place_mark_spec (s : TicTacToe) (position : Int) :
    if position < 1 ∨ 9 < position ∨ cell s (position - 1).toNat ≠ ' ' then
      place_mark s position = (false, s)
    else
      (place_mark s position).1 = true ∧
      cell (place_mark s position).2 (position - 1).toNat = s.current_player_ ∧
      (∀ i : Nat, i < 9 → i ≠ (position - 1).toNat →
        cell (place_mark s position).2 i = cell s i) ∧
      (place_mark s position).2.current_player_ = s.current_player_ := by
  rw [show (position - 1).toNat = position.toNat - 1 from by omega]
  by_cases hr : position < 1 ∨ 9 < position
  · rw [if_pos (by tauto)]
    simp [place_mark, hr]
  · have hidx : position.toNat - 1 < 9 := by omega
    have hfin : (⟨(position - 1).toNat, by omega⟩ : Fin 9) = ⟨position.toNat - 1, hidx⟩ := by
      simp [Fin.ext_iff]
    have hcell : cell s (position.toNat - 1) = s.board_ ⟨position.toNat - 1, hidx⟩ := by
      simp [cell, hidx]
    by_cases hocc : s.board_ ⟨position.toNat - 1, hidx⟩ = ' '
    · rw [if_neg (by push_neg; exact ⟨by omega, by omega, by rw [hcell, hocc]⟩)]
      have hpm : place_mark s position =
          (true, { s with board_ :=
            Function.update s.board_ ⟨position.toNat - 1, hidx⟩ s.current_player_ }) := by
        simp only [place_mark, dif_neg hr, hfin]
        simp [hocc]
      refine ⟨by rw [hpm], ?_, ?_, by rw [hpm]⟩
      · rw [hpm]
        simp [cell, hidx, Function.update_apply]
      · intro i hi hne
        rw [hpm]
        simp [cell, hi, Function.update_apply, Fin.ext_iff, hne]
    · rw [if_pos (by right; right; rw [hcell]; exact hocc)]
      simp only [place_mark, dif_neg hr, hfin]
      simp [hocc]

/-- Claim C3: has_winner returns true if and only if at least one of the 8
lines (3 rows, 3 columns, 2 diagonals) holds three equal non-empty marks;
in particular it returns false on the empty board.  The function reads the
state only (it is a pure function by construction), so it never mutates
the board. -/
theorem C3_has_winner_iff (s : TicTacToe) :
    (has_winner s = true ↔ ((∃ r < 3, row_win s r) ∨ (∃ c < 3, col_win s c) ∨ diag_win s)) ∧
    has_winner reset = false := by
  have r0 : row_win s 0 ↔ (s.board_ 0 ≠ ' ' ∧ s.board_ 0 = s.board_ 1 ∧ s.board_ 1 = s.board_ 2) :=
    Iff.rfl
  have r1 : row_win s 1 ↔ (s.board_ 3 ≠ ' ' ∧ s.board_ 3 = s.board_ 4 ∧ s.board_ 4 = s.board_ 5) :=
    Iff.rfl
  have r2 : row_win s 2 ↔ (s.board_ 6 ≠ ' ' ∧ s.board_ 6 = s.board_ 7 ∧ s.board_ 7 = s.board_ 8) :=
    Iff.rfl
  have k0 : col_win s 0 ↔ (s.board_ 0 ≠ ' ' ∧ s.board_ 0 = s.board_ 3 ∧ s.board_ 3 = s.board_ 6) :=
    Iff.rfl
  have k1 : col_win s 1 ↔ (s.board_ 1 ≠ ' ' ∧ s.board_ 1 = s.board_ 4 ∧ s.board_ 4 = s.board_ 7) :=
    Iff.rfl
  have k2 : col_win s 2 ↔ (s.board_ 2 ≠ ' ' ∧ s.board_ 2 = s.board_ 5 ∧ s.board_ 5 = s.board_ 8) :=
    Iff.rfl
  have dg : diag_win s ↔
      ((s.board_ 0 ≠ ' ' ∧ s.board_ 0 = s.board_ 4 ∧ s.board_ 4 = s.board_ 8) ∨
       (s.board_ 2 ≠ ' ' ∧ s.board_ 2 = s.board_ 4 ∧ s.board_ 4 = s.board_ 6)) :=
    Iff.rfl
  refine ⟨?_, by decide⟩
  constructor
  · intro h
    simp only [has_winner, wins, line_has_win, List.any_cons, List.any_nil,
      Bool.or_eq_true, Bool.and_eq_true, bne_iff_ne, beq_iff_eq, and_assoc,
      Bool.false_eq_true, or_false] at h
    rcases h with h | h | h | h | h | h | h | h
    · exact Or.inl ⟨0, by omega, r0.mpr h⟩
    · exact Or.inl ⟨1, by omega, r1.mpr h⟩
    · exact Or.inl ⟨2, by omega, r2.mpr h⟩
    · exact Or.inr (Or.inl ⟨0, by omega, k0.mpr h⟩)
    · exact Or.inr (Or.inl ⟨1, by omega, k1.mpr h⟩)
    · exact Or.inr (Or.inl ⟨2, by omega, k2.mpr h⟩)
    · exact Or.inr (Or.inr (dg.mpr (Or.inl h)))
    · exact Or.inr (Or.inr (dg.mpr (Or.inr h)))
  · intro h
    simp only [has_winner, wins, line_has_win, List.any_cons, List.any_nil,
      Bool.or_eq_true, Bool.and_eq_true, bne_iff_ne, beq_iff_eq, and_assoc,
      Bool.false_eq_true, or_false]
    rcases h with ⟨r, hr, hw⟩ | ⟨c, hc, hw⟩ | hd
    · interval_cases r
      · exact Or.inl (r0.mp hw)
      · exact Or.inr (Or.inl (r1.mp hw))
      · exact Or.inr (Or.inr (Or.inl (r2.mp hw)))
    · interval_cases c
      · exact Or.inr (Or.inr (Or.inr (Or.inl (k0.mp hw))))
      · exact Or.inr (Or.inr (Or.inr (Or.inr (Or.inl (k1.mp hw)))))
      · exact Or.inr (Or.inr (Or.inr (Or.inr (Or.inr (Or.inl (k2.mp hw))))))
    · rcases dg.mp hd with h | h
      · exact Or.inr (Or.inr (Or.inr (Or.inr (Or.inr (Or.inr (Or.inl h))))))
      · exact Or.inr (Or.inr (Or.inr (Or.inr (Or.inr (Or.inr (Or.inr h))))))

/-- Claim C4: in the rendered board, the character printed for the cell at
row r and column c (found at the fixed offset of that cell in the
character stream) is the mark of the owning player when the cell is
occupied, and the digit character of its 1-based position when the cell is
empty.  Rendering is a pure function of the state, so it never mutates the
board. -/
theorem C4_render_cells (s : TicTacToe) (r c : Fin 3) :
    (draw_board_chars s).getD (2 + 24 * r.val + 4 * c.val) ' ' = display_cell s (cell_index r c) ∧
    display_cell s (cell_index r c) =
      (if s.board_ (cell_index r c) = ' '
       then Char.ofNat (48 + ((cell_index r c).val + 1))
       else s.board_ (cell_index r c)) := by
  constructor
  · fin_cases r <;> fin_cases c <;> rfl
  · by_cases hb : s.board_ (cell_index r c) = ' '
    · simp only [display_cell, hb, if_pos]
      simp [Char.ofNat]
      fin_cases r <;> fin_cases c <;> rfl
    · simp [display_cell, hb]

/-- Claim C5: in the main loop, the win check runs on the state right
after the accepted move and before any swap, so a detected win is
announced for the player who just moved (whose identity the move did not
change); when the accepted move both fills the board and completes a
line, the session ends Won and never Drawn. -/
theorem C5_win_precedence (s : TicTacToe) (line : String) (rest : List String) (s' : TicTacToe)
    (hacc : (prompt_move s (some line)).1 = .step true s')
    (hwin : has_winner s' = true) :
    (run_from s (line :: rest)).result = .won s'.current_player_ s' ∧
    s'.current_player_ = s.current_player_ ∧
    ∀ t, (run_from s (line :: rest)).result ≠ .drawn t := by
  have hp : prompt_move s (some line) = (.step true s', (prompt_move s (some line)).2) := by
    rw [← hacc]
  have hrun := run_from_accept_win s line rest s' (prompt_move s (some line)).2 hp hwin
  obtain ⟨n, hn, hpm⟩ := prompt_move_accept s line s' hacc
  have hplayer : s'.current_player_ = s.current_player_ := by
    have := place_mark_player s n
    rw [hpm] at this
    exact this
  refine ⟨by rw [hrun], hplayer, ?_⟩
  intro t
  rw [hrun]
  simp

/-- Witness for C5: with X at squares 1 and 2, the accepted move 3 wins on
the spot for X and the session result is Won, not Drawn. -/
theorem C5_win_precedence_witness :
    (run_from c5_before [square3]).result = .won c5_after.current_player_ c5_after ∧
    c5_after.current_player_ = c5_before.current_player_ ∧
    ∀ t, (run_from c5_before [square3]).result ≠ .drawn t :=
  C5_win_precedence c5_before square3 [] c5_after rfl (by decide)

/-- Claim C6: a rejected move leaves the state (hence the current player)
unchanged; across a whole session from reset the movers of the accepted
moves strictly alternate starting from X (they form the alternating list
of their length); and when the run ends won or drawn, the final state
still carries the last mover as current player, i.e. no swap happened
after the terminal move. -/
theorem C6_alternation (inputs : List String) (s : TicTacToe) (line : String) (t : TicTacToe)
    (hrej : (prompt_move s (some line)).1 = .step false t) :
    t = s ∧
    (run_from reset inputs).movers =
      altList 'X' (run_from reset inputs).movers.length ∧
    (∀ p fin, (run_from reset inputs).result = .won p fin →
      (run_from reset inputs).movers.getLast? = some fin.current_player_) ∧
    (∀ fin, (run_from reset inputs).result = .drawn fin →
      (run_from reset inputs).movers.getLast? = some fin.current_player_) := by
  obtain ⟨hm, hw, hd⟩ := run_from_movers inputs reset
  exact ⟨prompt_move_reject s line t hrej, hm, fun p fin h => (hw p fin h).2, hd⟩

/-- Witness for C6: the unparsable line abc is rejected at reset leaving
the state unchanged, and the empty session trivially has the alternating
mover trace. -/
theorem C6_alternation_witness :
    reset = reset ∧
    (run_from reset []).movers = altList 'X' (run_from reset []).movers.length ∧
    (∀ p fin, (run_from reset []).result = .won p fin →
      (run_from reset []).movers.getLast? = some fin.current_player_) ∧
    (∀ fin, (run_from reset []).result = .drawn fin →
      (run_from reset []).movers.getLast? = some fin.current_player_) :=
  C6_alternation [] reset abc_line reset rfl

/-- Claim C7: on any input line that stoi cannot parse, prompt_move prints
the prompt followed by the parse-error message, returns the no-move
signal, and hands back the very same state, so the same player is
re-prompted. -/
theorem C7_parse_error (s : TicTacToe) (line : String) (h : stoi line = none) :
    prompt_move s (some line) = (.step false s, [prompt_str s, parse_msg]) := by
  simp [prompt_move, h]

/-- Witness for C7: the line abc fails to parse and prompt_move at reset
returns the unchanged state with the parse-error message. -/
theorem C7_parse_error_witness :
    stoi abc_line = none ∧
    prompt_move reset (some abc_line) =
      (.step false reset, [prompt_str reset, parse_msg]) :=
  ⟨rfl, C7_parse_error reset abc_line rfl⟩

/-- Claim C8: the process exit code is 0 for every session (win, draw, or
stream closure); at a closed stream the prompt handler exits with code 0
after printing exactly the prompt and the closure message, producing no
new state; and a run that ends by stream exhaustion has the closure
message as its very last output. -/
theorem C8_stream_closure (inputs : List String) (s : TicTacToe) :
    (main_run inputs).2 = 0 ∧
    prompt_move s none = (.exited 0, [prompt_str s, closure_msg]) ∧
    (∀ code fin, (run_from reset inputs).result = .terminated code fin →
      code = 0 ∧ (run_from reset inputs).outputs.getLast? = some closure_msg) := by
  refine ⟨?_, rfl, fun code fin h => run_from_terminated inputs reset code fin h⟩
  show (match (run_from reset inputs).result with
    | .terminated code _ => code
    | _ => 0) = 0
  cases hres : (run_from reset inputs).result with
  | terminated code fin => exact (run_from_terminated inputs reset code fin hres).1
  | won p fin => rfl
  | drawn fin => rfl

/-- Witness for C8: the empty input stream closes at the first prompt; the
exit code is 0 and the closure message is the final output. -/
theorem C8_stream_closure_witness :
    (main_run []).2 = 0 ∧
    prompt_move reset none = (.exited 0, [prompt_str reset, closure_msg]) ∧
    (∀ code fin, (run_from reset []).result = .terminated code fin →
      code = 0 ∧ (run_from reset []).outputs.getLast? = some closure_msg) :=
  C8_stream_closure [] reset

/-- Claim C9: place_mark returns immediately, without touching the board,
for every integer position outside 1 to 9; and whenever the range check
passes, the computed index (position minus 1) is non-negative and below 9,
so every board access in the embedded total function is in bounds. -/
theorem C9_index_safety (position : Int) (s : TicTacToe) :
    if position < 1 ∨ 9 < position then place_mark s position = (false, s)
    else 0 ≤ position - 1 ∧ (position - 1).toNat < 9 := by
  split_ifs with h
  · simp [place_mark, h]
  · push_neg at h
    omega

/-- Claim C10: every state reachable from reset through the operations the
program performs satisfies the invariant: each cell holds blank, X, or O;
the current player is X or O; and the number of X marks minus the number
of O marks is 0 or 1. -/
theorem C10_reachable_invariant (t : TicTacToe) (h : Reachable t) : StateInv t := by
  rcases h with hh | ⟨s, p, hs, hacc, rfl⟩
  · exact state_inv_of_head _ (head_inv_of_reachable_head _ hh)
  · exact (head_inv_place s p (head_inv_of_reachable_head _ hs) hacc).1

/-- Witness for C10: the initial state reset is reachable and satisfies
the invariant. -/
theorem C10_reachable_invariant_witness : StateInv reset :=
  C10_reachable_invariant reset (Or.inl ReachableHead.init)
